import Mathlib

set_option maxRecDepth 8000

/-!
Verification of the `image_gen` command-line tool against its specification.

The Python sources are shallowly embedded: pure functions become Lean
functions, remote calls are abstracted as oracles over response values,
the filesystem is a finite list of file names, and Python exceptions are
modelled with `Option`/`Except`.  Python `float` values are IEEE binary64
and are modelled exactly: a finite double is an integer pair `m·2^e`, and
the two float operations the program performs (true division of two ints,
which can raise `OverflowError`, and subtraction inside `abs(x - ratio)`)
round to nearest with ties to even at 53 significant bits, minimum
exponent -1074.  The rounding model was cross-checked against CPython on
division, subtraction, tie, subnormal, underflow and overflow-boundary
cases.
-/

namespace ImageGen

/-! ## Python integer parsing

`int(s)` on an ASCII string: optional surrounding whitespace, an optional
sign, then decimal digits in which single underscores may appear between
digits.  Anything else raises `ValueError`, modelled as `none`. -/

/-- The ASCII characters `int()` strips around a numeral: exactly
tab, newline, vertical tab, form feed, carriage return and space
(verified against CPython for all ASCII characters). -/
def pyIsSpace (c : Char) : Bool :=
  c == ' ' || c == '\t' || c == '\n' || c == '\x0b' || c == '\x0c' || c == '\r'

/-- The whitespace stripping `int()` performs on ASCII text: drop leading
and trailing whitespace characters. -/
def pyStrip (l : List Char) : List Char :=
  ((l.dropWhile pyIsSpace).reverse.dropWhile pyIsSpace).reverse

/-- Python `c in s` for a single character `c`: character membership. -/
def pyContainsChar (s : String) (c : Char) : Bool :=
  s.data.contains c

/-- Python `str.lower()` on ASCII text. -/
def pyToLower (s : String) : String :=
  ⟨s.data.map Char.toLower⟩

/-- Python `str.split(sep)` for a single-character separator: split at every
occurrence, keeping empty pieces. -/
def pySplitGo (c : Char) : List Char → List Char → List String
  | [], acc => [⟨acc.reverse⟩]
  | d :: rest, acc =>
    if d == c then ⟨acc.reverse⟩ :: pySplitGo c rest [] else pySplitGo c rest (d :: acc)

/-- Python `str.split(sep)` for a single-character separator. -/
def pySplit (s : String) (c : Char) : List String :=
  pySplitGo c s.data []

/-- Parse the digit part of a Python integer literal after the first digit:
digits with single underscores permitted between digits. -/
def pyDigitsGo : List Char → Nat → Option Nat
  | [], acc => some acc
  | '_' :: c :: rest, acc =>
    if c.isDigit then pyDigitsGo rest (10 * acc + (c.toNat - 48)) else none
  | '_' :: [], _ => none
  | c :: rest, acc =>
    if c.isDigit then pyDigitsGo rest (10 * acc + (c.toNat - 48)) else none

/-- Parse a nonempty run of decimal digits (underscores between digits
allowed), as Python `int` does after sign handling. -/
def pyDigits : List Char → Option Nat
  | [] => none
  | '_' :: _ => none
  | c :: rest => if c.isDigit then pyDigitsGo rest (c.toNat - 48) else none

/-- Model of Python `int(s)` on ASCII strings: strip whitespace, optional
sign, decimal digits with single underscores between digits; `none` models
`ValueError`. -/
def pyInt (s : String) : Option Int :=
  match pyStrip s.data with
  | '+' :: rest => (pyDigits rest).map Int.ofNat
  | '-' :: rest => (pyDigits rest).map (fun n => -(n : Int))
  | l => (pyDigits l).map Int.ofNat

/-! ## Variant B size parsing (`gemini_backend.py`) -/

/-- `VALID_ASPECTS` from `gemini_backend.py` (a set in the source; modelled
as a list, only membership is used). -/
def VALID_ASPECTS : List String := ["1:1", "16:9", "9:16", "4:3", "3:4", "21:9"]

/-- `SIZE_TO_ASPECT` from `gemini_backend.py`, in source insertion order. -/
def SIZE_TO_ASPECT : List (String × String) :=
  [("1024x1024", "1:1"), ("1536x1536", "1:1"), ("2048x2048", "1:1"),
   ("1920x1080", "16:9"), ("1280x720", "16:9"), ("3840x2160", "16:9"), ("1344x768", "16:9"),
   ("1080x1920", "9:16"), ("720x1280", "9:16"),
   ("1024x768", "4:3"), ("1280x960", "4:3"),
   ("768x1024", "3:4"), ("960x1280", "3:4"),
   ("2560x1080", "21:9"), ("3440x1440", "21:9"), ("1536x672", "21:9")]

/-! ### IEEE binary64 model

A finite double is represented (not necessarily canonically) as
`m · 2^e`.  All arithmetic is integer arithmetic so that concrete values
evaluate inside the kernel. -/

/-- A finite IEEE binary64 value, denoting `m · 2^e`. -/
structure FloatVal where
  m : Int
  e : Int
  deriving DecidableEq, Repr

/-- The rational a float denotes. -/
def FloatVal.toRat (f : FloatVal) : ℚ :=
  (f.m : ℚ) * (2 : ℚ) ^ f.e

/-- Bit length of a natural number (zero for zero), by structural fuel. -/
def natBitsGo : Nat → Nat → Nat
  | 0, _ => 0
  | fuel + 1, n => if n = 0 then 0 else natBitsGo fuel (n / 2) + 1

/-- Bit length of a natural number: `natBits n = ⌊log₂ n⌋ + 1` for
positive `n`. -/
def natBits (n : Nat) : Nat :=
  natBitsGo n n

/-- Whether `a ≥ b · 2^k` for naturals `a, b` and an integer `k`. -/
def gePow (a b : Nat) (k : Int) : Bool :=
  if 0 ≤ k then b * 2 ^ k.toNat ≤ a else b ≤ a * 2 ^ (-k).toNat

/-- Round the true quotient `a / b` of positive naturals to a binary64
significand-exponent pair: nearest, ties to even, 53 significant bits,
minimum exponent `-1074` (subnormals underflow gradually to zero).  No
overflow clamp — callers test `divOverflows` first. -/
def divRound (a b : Nat) : Nat × Int :=
  let k0 : Int := (natBits a : Int) - (natBits b : Int)
  let k : Int := if gePow a b k0 then k0 else k0 - 1
  let e : Int := max (k - 52) (-1074)
  let N := if e ≤ 0 then a * 2 ^ (-e).toNat else a
  let D := if e ≤ 0 then b else b * 2 ^ e.toNat
  let q0 := N / D
  let r := N % D
  let m := if 2 * r < D then q0 else if D < 2 * r then q0 + 1
           else if q0 % 2 = 0 then q0 else q0 + 1
  (m, e)

/-- Python `w / h` on integers (`h ≠ 0`): the correctly rounded binary64
quotient.  The sign of a zero result is immaterial to this program and is
dropped. -/
def flDivInt (n d : Int) : FloatVal :=
  if n = 0 then ⟨0, 0⟩
  else
    let p := divRound n.natAbs d.natAbs
    if (0 ≤ n) = (0 ≤ d) then ⟨(p.1 : Int), p.2⟩ else ⟨-(p.1 : Int), p.2⟩

/-- Whether Python `n / d` on integers raises `OverflowError`: the
rounded magnitude reaches `2^1024`, which happens exactly when the exact
magnitude is at least `2^1024 - 2^970` (the rounding midpoint above the
largest finite double; the tie there goes to the even significand
`2^53`, i.e. to infinity).  Verified against CPython at the boundary. -/
def divOverflows (n d : Int) : Bool :=
  (2 ^ 1024 - 2 ^ 970) * d.natAbs ≤ n.natAbs

/-- Round the exact dyadic value `M · 2^E` to binary64 (nearest, ties to
even, minimum exponent `-1074`). -/
def roundDyadic (M : Int) (E : Int) : FloatVal :=
  if M = 0 then ⟨0, 0⟩
  else
    let a := M.natAbs
    let k : Int := (natBits a : Int) - 1 + E
    let e : Int := max (k - 52) (-1074)
    let t : Int := e - E
    if t ≤ 0 then ⟨M * 2 ^ (-t).toNat, e⟩
    else
      let tn := t.toNat
      let q0 := a / 2 ^ tn
      let r := a % 2 ^ tn
      let half := 2 ^ (tn - 1)
      let m := if r < half then q0 else if half < r then q0 + 1
               else if q0 % 2 = 0 then q0 else q0 + 1
      if 0 ≤ M then ⟨(m : Int), e⟩ else ⟨-(m : Int), e⟩

/-- Binary64 subtraction `x - y`: the exact dyadic difference, rounded.
(For the operands this program subtracts the result is always finite.) -/
def flSub (x y : FloatVal) : FloatVal :=
  let E := min x.e y.e
  roundDyadic (x.m * 2 ^ (x.e - E).toNat - y.m * 2 ^ (y.e - E).toNat) E

/-- Float `abs`, exact on the representation. -/
def flAbs (x : FloatVal) : FloatVal :=
  ⟨(x.m.natAbs : Int), x.e⟩

/-- Float `<`: exact comparison of the denoted values. -/
def flLt (a b : FloatVal) : Bool :=
  let E := min a.e b.e
  decide (a.m * 2 ^ (a.e - E).toNat < b.m * 2 ^ (b.e - E).toNat)

/-- Float `≤` (used only to state the tie-break characterization). -/
def flLe (a b : FloatVal) : Bool :=
  !flLt b a

/-- The key `abs(x - ratio)` computed for a candidate `c`: a rounded
float subtraction followed by exact `abs`. -/
def floatDist (r c : FloatVal) : FloatVal :=
  flAbs (flSub c r)

/-- The Python exceptions this backend can raise past its handlers. -/
inductive PyErr where
  | overflowError
  | keyError (key : String)
  deriving DecidableEq, Repr

instance {ε α : Type} [DecidableEq ε] [DecidableEq α] : DecidableEq (Except ε α) := fun x y =>
  match x, y with
  | .ok a, .ok b =>
    if h : a = b then .isTrue (congrArg Except.ok h)
    else .isFalse (fun hc => h (Except.ok.inj hc))
  | .error a, .error b =>
    if h : a = b then .isTrue (congrArg Except.error h)
    else .isFalse (fun hc => h (Except.error.inj hc))
  | .ok _, .error _ => .isFalse (fun hc => Except.noConfusion hc)
  | .error _, .ok _ => .isFalse (fun hc => Except.noConfusion hc)

/-- The `aspects` dict of `_parse_size`, in source insertion order: the
key `1.0` is a float literal, the others are int/int float divisions. -/
def aspectsList : List (FloatVal × String) :=
  [(⟨1, 0⟩, "1:1"), (flDivInt 16 9, "16:9"), (flDivInt 9 16, "9:16"),
   (flDivInt 4 3, "4:3"), (flDivInt 3 4, "3:4"), (flDivInt 21 9, "21:9")]

/-- Model of Python `min(keys, key=lambda x: abs(x - ratio))` over the
pairs of the `aspects` dict: scan, replacing the current best only on a
strictly smaller float distance (so equal float distances keep the
earliest candidate). -/
def minScan (r : FloatVal) : List (FloatVal × String) → (FloatVal × String) → (FloatVal × String)
  | [], best => best
  | p :: rest, best =>
    minScan r rest (if flLt (floatDist r p.1) (floatDist r best.1) then p else best)

/-- The `try` block of `_parse_size`: lowercase, split on `"x"`, parse the
two components with `int`, divide.  `.ok none` models a caught
`ValueError` (bad component or a number of components other than two) or
`ZeroDivisionError` (`H = 0`); `.error` models the `OverflowError` that
`w / h` raises past the handler, which catches only those two. -/
def parseWxH (s : String) : Except PyErr (Option FloatVal) :=
  match pySplit (pyToLower s) 'x' with
  | [a, b] =>
    match pyInt a, pyInt b with
    | some w, some h =>
      if h = 0 then .ok none
      else if divOverflows w h then .error .overflowError
      else .ok (some (flDivInt w h))
    | _, _ => .ok none
  | _ => .ok none

/-- The closest-aspect selection of `_parse_size` for a parsed ratio. -/
def closestAspect (r : FloatVal) : String :=
  match aspectsList with
  | [] => "1:1"
  | best :: rest => (minScan r rest best).2

/-- `GeminiBackend._parse_size`: aspect-token passthrough, then the
known-pixel-dimension table, then `W x H` parsing (guarded by the
case-sensitive test `"x" in size`), then the `"1:1"` fallback; an
`OverflowError` from the quotient propagates. -/
def parseSize (size : String) : Except PyErr (String × Option String) :=
  if VALID_ASPECTS.contains size then .ok (size, none)
  else
    match SIZE_TO_ASPECT.lookup size with
    | some a => .ok (a, none)
    | none =>
      if pyContainsChar size 'x' then
        match parseWxH size with
        | .error e => .error e
        | .ok (some r) => .ok (closestAspect r, none)
        | .ok none => .ok ("1:1", none)
      else .ok ("1:1", none)

/-- A size string whose `W x H` quotient overflows the float range: four
hundred nines over one. -/
def hugeSize : String :=
  ⟨List.replicate 400 '9'⟩ ++ "x1"

/-! ## Variant B quality and moderation mappings -/

/-- `QUALITY_TO_SIZE` from `gemini_backend.py`. -/
def QUALITY_TO_SIZE : List (String × String) :=
  [("high", "4K"), ("medium", "2K"), ("low", "1K")]

/-- `MODERATION_TO_THRESHOLD` from `gemini_backend.py`. -/
def MODERATION_TO_THRESHOLD : List (String × String) :=
  [("low", "OFF"), ("auto", "BLOCK_ONLY_HIGH")]

/-- The two `HarmBlockThreshold` values ever produced by the backend. -/
inductive HarmBlockThreshold where
  | OFF
  | BLOCK_ONLY_HIGH
  deriving DecidableEq, Repr

/-- The four harm categories enumerated in `_get_safety_settings`. -/
inductive HarmCategory where
  | HARASSMENT
  | HATE_SPEECH
  | SEXUALLY_EXPLICIT
  | DANGEROUS_CONTENT
  deriving DecidableEq, Repr

/-- One `types.SafetySetting` value. -/
structure SafetySetting where
  category : HarmCategory
  threshold : HarmBlockThreshold
  deriving DecidableEq, Repr

/-- `getattr(types.HarmBlockThreshold, name)` for the two names the code
ever looks up. -/
def thresholdOfName (s : String) : HarmBlockThreshold :=
  if s = "OFF" then .OFF else .BLOCK_ONLY_HIGH

/-- `GeminiBackend._get_safety_settings`: resolve the threshold from the
moderation string (defaulting to `BLOCK_ONLY_HIGH`) and apply it to all
four harm categories. -/
def getSafetySettings (moderation : String) : List SafetySetting :=
  let thresholdName := (MODERATION_TO_THRESHOLD.lookup moderation).getD "BLOCK_ONLY_HIGH"
  let threshold := thresholdOfName thresholdName
  [⟨.HARASSMENT, threshold⟩, ⟨.HATE_SPEECH, threshold⟩,
   ⟨.SEXUALLY_EXPLICIT, threshold⟩, ⟨.DANGEROUS_CONTENT, threshold⟩]

/-! ## Configuration and result values (`base.py`)

File paths are modelled as strings; image bytes as lists of byte values. -/

/-- `ImageGenConfig` from `base.py`.  The `images` tuple is a list; `count`
is a Python `int`, so an unrestricted integer. -/
structure ImageGenConfig where
  prompt : String
  images : List String
  quality : String
  size : String
  count : Int
  transparent : Bool
  moderation : String
  deriving DecidableEq, Repr

/-- `ImageGenResult` from `base.py`. -/
structure ImageGenResult where
  image_data : List Nat
  format : String
  deriving DecidableEq, Repr

/-- A Python sequence argument that is either a growable `list` or a fixed
`tuple`, as accepted by the `ImageGenConfig` constructor. -/
inductive PySeq (α : Type) where
  | list (xs : List α)
  | tuple (xs : List α)
  deriving DecidableEq, Repr

/-- The elements of a Python sequence, in order. -/
def PySeq.elems {α : Type} : PySeq α → List α
  | .list xs => xs
  | .tuple xs => xs

/-- The `ImageGenConfig` constructor: each field is stored as supplied,
except that `images` is converted with `tuple(images)` (an order-preserving
conversion to a fixed sequence). -/
def mkImageGenConfig (prompt : String) (images : PySeq String) (quality size : String)
    (count : Int) (transparent : Bool) (moderation : String) : ImageGenConfig :=
  ⟨prompt, images.elems, quality, size, count, transparent, moderation⟩

/-- Setting an attribute on a frozen dataclass instance: the generated
`__setattr__` of `@dataclass(frozen=True)` unconditionally raises
`FrozenInstanceError`, whatever the field and value. -/
def configSetattr {α : Type} (_c : ImageGenConfig) (fieldName : String) (_v : α) :
    Except String ImageGenConfig :=
  .error ("cannot assign to field " ++ fieldName)

/-! ## Variant B responses and call fan-out (`gemini_backend.py`) -/

/-- `inline_data` of a Gemini response part (present and truthy, or not). -/
structure InlineData where
  mime_type : String
  data : List Nat
  deriving DecidableEq, Repr

/-- One part of a Gemini response candidate's content. -/
structure GeminiPart where
  inline_data : Option InlineData
  deriving DecidableEq, Repr

/-- One Gemini response candidate. -/
structure GeminiCandidate where
  parts : List GeminiPart
  deriving DecidableEq, Repr

/-- A Gemini API response. -/
structure GeminiResponse where
  candidates : List GeminiCandidate
  deriving DecidableEq, Repr

/-- The format tag computed by `_extract_images` from a part's MIME type:
`mime_type.split("/")[-1] if "/" in mime_type else "png"`. -/
def fmtOfMime (mime : String) : String :=
  if pyContainsChar mime '/' then (pySplit mime '/').getLastD "png" else "png"

/-- `GeminiBackend._extract_images`: no candidates yields no results; else
each part of the first candidate carrying truthy `inline_data` yields one
result, in part order. -/
def extractImages (response : GeminiResponse) : List ImageGenResult :=
  match response.candidates with
  | [] => []
  | c :: _ =>
    c.parts.filterMap fun part =>
      part.inline_data.map fun d => ⟨d.data, fmtOfMime d.mime_type⟩

/-- The request data passed to each `generate_content` call (prompt,
aspect ratio, image size from the quality bucket, safety settings). -/
structure GenRequest where
  prompt : String
  aspect : String
  imageSize : String
  safety : List SafetySetting
  deriving DecidableEq, Repr

/-- The request a configuration induces once its aspect ratio and image
size have been resolved, as computed at the top of
`GeminiBackend.generate` and `GeminiBackend.edit`. -/
def geminiRequest (cfg : ImageGenConfig) (aspect imageSize : String) : GenRequest :=
  ⟨cfg.prompt, aspect, imageSize, getSafetySettings cfg.moderation⟩

/-- The `for i in range(count)` loop of `GeminiBackend.generate`: issue one
remote call per iteration (`oracle i` is the response to the i-th call) and
extend the result list with that call's extracted images.  Returns the
issued requests and the accumulated results. -/
def genLoop (oracle : Nat → GeminiResponse) (req : GenRequest) :
    Nat → Nat → List GenRequest × List ImageGenResult
  | _, 0 => ([], [])
  | i, k + 1 =>
    let rest := genLoop oracle req (i + 1) k
    (req :: rest.1, extractImages (oracle i) ++ rest.2)

/-- `GeminiBackend.generate`: `_parse_size` runs first and its
`OverflowError` propagates before any remote call; then
`QUALITY_TO_SIZE[config.quality]` raises `KeyError` on an unknown
quality; otherwise `range(count)` sequential single-image calls run
(`Int.toNat` models Python `range` on a possibly negative count). -/
def geminiGenerate (oracle : Nat → GeminiResponse) (cfg : ImageGenConfig) :
    Except PyErr (List GenRequest × List ImageGenResult) :=
  match parseSize cfg.size with
  | .error e => .error e
  | .ok (aspect, _) =>
    match QUALITY_TO_SIZE.lookup cfg.quality with
    | none => .error (.keyError cfg.quality)
    | some sz => .ok (genLoop oracle (geminiRequest cfg aspect sz) 0 cfg.count.toNat)

/-- `GeminiBackend.edit`: the same size parsing and quality lookup, then
a single `generate_content` call whatever the count; `oracle 0` is its
response. -/
def geminiEdit (oracle : Nat → GeminiResponse) (cfg : ImageGenConfig) :
    Except PyErr (List GenRequest × List ImageGenResult) :=
  match parseSize cfg.size with
  | .error e => .error e
  | .ok (aspect, _) =>
    match QUALITY_TO_SIZE.lookup cfg.quality with
    | none => .error (.keyError cfg.quality)
    | some sz => .ok ([geminiRequest cfg aspect sz], extractImages (oracle 0))

/-! ## Variant A result decoding (`openai_backend.py`) -/

/-- One item of an OpenAI images response: `b64_json` and `url` as optional
attributes. -/
structure OpenAIItem where
  b64_json : Option String
  url : Option String
  deriving DecidableEq, Repr

/-- Python truthiness of an optional string attribute: present and
non-empty. -/
def optTruthy : Option String → Bool
  | some s => s != ""
  | none => false

/-- `OpenAIBackend._decode_result`, parametrized by the external base64
decoder and the blocking URL fetch: inline data wins, then a URL, else a
`ValueError`; the format tag is always `"png"`. -/
def decodeResult (b64decode : String → List Nat) (fetch : String → List Nat)
    (item : OpenAIItem) : Except String ImageGenResult :=
  if optTruthy item.b64_json then
    .ok ⟨b64decode (item.b64_json.getD ""), "png"⟩
  else if optTruthy item.url then
    .ok ⟨fetch (item.url.getD ""), "png"⟩
  else
    .error "Unexpected response format from OpenAI API"

/-! ## Backend selector (`backends/__init__.py`) -/

/-- The two backend variants. -/
inductive BackendKind where
  | openai
  | gemini
  deriving DecidableEq, Repr

/-- A backend-constructor invocation (the point where credential and
dependency checks would run). -/
inductive ConstructEvent where
  | constructedOpenAI
  | constructedGemini
  deriving DecidableEq, Repr

/-- `get_backend`: map `"gpt"` and `"gemini"` to a fresh backend instance
(recording the construction as an event); any other name raises
`ValueError` naming the identifier, with no construction performed. -/
def getBackend (apiName : String) : List ConstructEvent × Except String BackendKind :=
  if apiName = "gpt" then ([.constructedOpenAI], .ok .openai)
  else if apiName = "gemini" then ([.constructedGemini], .ok .gemini)
  else ([], .error ("Unknown API backend: " ++ apiName))

/-! ## Invocation driver (`cli.py`)

The command-line arguments are modelled after `argparse` has run, so `api`
is already one of the two admissible choices.  The filesystem and the
`pathlib` suffix computation are external collaborators, provided by an
environment record. -/

/-- The `--api` choices admitted by `argparse`. -/
inductive Api where
  | gpt
  | gemini
  deriving DecidableEq, Repr

/-- The parsed command-line arguments relevant to the driver. -/
structure Args where
  images : List String
  api : Api
  output : Option String
  quality : String
  size : String
  prompt : Option String
  promptFile : Option String
  count : Int
  transparent : Bool
  moderation : String
  deriving DecidableEq, Repr

/-- The driver's external collaborators: filesystem existence, the
`pathlib` suffix of a path, and environment variables. -/
structure DriverEnv where
  fileExists : String → Bool
  suffix : String → String
  envVar : String → Option String

/-- Observable driver milestones: the credential check ran, an input image
passed validation, and the backend stage (construction, remote calls,
saving) was reached. -/
inductive DriverEvent where
  | credChecked
  | imageValidated (p : String)
  | backendInvoked
  deriving DecidableEq, Repr

/-- `VALID_EXTENSIONS` from `cli.py` (a set in the source). -/
def VALID_EXTENSIONS : List String := [".png", ".jpg", ".jpeg", ".webp"]

/-- The image-count ceiling of `cli.py`: `4 if args.api == "gpt" else 14`. -/
def maxImagesFor : Api → Nat
  | .gpt => 4
  | .gemini => 14

/-- `check_api_key`: truthiness of `OPENAI_API_KEY` for gpt; of
`GEMINI_API_KEY` or `GOOGLE_API_KEY` for gemini. -/
def hasApiKey (env : DriverEnv) : Api → Bool
  | .gpt => optTruthy (env.envVar "OPENAI_API_KEY")
  | .gemini => optTruthy (env.envVar "GEMINI_API_KEY") ||
      optTruthy (env.envVar "GOOGLE_API_KEY")

/-- `validate_image_path` as a predicate: the path exists and its lowered
`pathlib` suffix is a recognized image extension. -/
def validImagePath (env : DriverEnv) (p : String) : Bool :=
  env.fileExists p && VALID_EXTENSIONS.contains (pyToLower (env.suffix p))

/-- The prefix of `main` after argument parsing, ending where the backend
stage begins: prompt-file resolution, the per-backend image-count ceiling,
the credential check, then per-file validation.  Returns the milestones
reached and either `exit 1` or success; the backend stage itself
(construction, remote calls, saving) is summarized by the final
`backendInvoked` event, before which no construction or remote call
happens in the source. -/
def driverRun (env : DriverEnv) (args : Args) : List DriverEvent × Except Nat Unit :=
  if args.promptFile.isSome && !env.fileExists (args.promptFile.getD "") then
    ([], .error 1)
  else if args.images.length > maxImagesFor args.api then
    ([], .error 1)
  else if !hasApiKey env args.api then
    ([.credChecked], .error 1)
  else
    match args.images.find? (fun p => !validImagePath env p) with
    | some _ => ([.credChecked], .error 1)
    | none =>
      ([.credChecked] ++ args.images.map .imageValidated ++ [.backendInvoked], .ok ())

/-! ## Output naming (`cli.py`, saving loop)

A decimal renderer for the suffix number, with the injectivity facts the
collision-freedom arguments need.  `Nat.repr` (Lean's decimal rendering,
matching Python's `f"{n}"`) is proved equal to a structurally recursive
digits function. -/

/-- Decimal digits of `n`, most significant first, via the standard
division-remainder recursion. -/
def digs (n : Nat) : List Char :=
  if _h : n < 10 then [Nat.digitChar n]
  else digs (n / 10) ++ [Nat.digitChar (n % 10)]
decreasing_by exact Nat.div_lt_self (by omega) (by omega)

/-- `all_extensions` from the saving loop of `cli.py`. -/
def allExtensions : List String := [".png", ".jpg", ".jpeg", ".webp"]

/-- The candidate output file name `f"{base_name}_{suffix_num}{ext}"`. -/
def fileName (base : String) (n : Nat) (ext : String) : String :=
  base ++ "_" ++ Nat.repr n ++ ext

/-- The saving loop's collision test for one suffix number: some recognized
extension gives an existing file. -/
def isBlocked (fs : List String) (base : String) (n : Nat) : Bool :=
  allExtensions.any fun ext => fs.contains (fileName base n ext)

/-- The `while any(...)` scan for the next free suffix number.  The real
loop terminates because the filesystem is finite; the fuel parameter is
sized by callers so that a free suffix is always found within it. -/
def findSuffix (fs : List String) (base : String) : Nat → Nat → Nat
  | 0, start => start
  | fuel + 1, start =>
    if isBlocked fs base start then findSuffix fs base fuel (start + 1) else start

/-- Extension derivation from a result's format tag: an empty (falsy) tag
defaults to `png`, and `jpeg` is normalized to `.jpg`. -/
def outExt (format : String) : String :=
  let fmt := if format = "" then "png" else format
  if fmt = "jpeg" then ".jpg" else "." ++ fmt

/-- One step of fuel sufficient to find a free suffix: each blocked suffix
consumes a distinct existing file per extension. -/
def suffixFuel (fs : List String) : Nat :=
  4 * fs.length + 1

/-- The per-result saving loop of `main`: for each result, rescan for the
next free suffix from the current one, write the file (which then exists
for later scans), and continue from the successor suffix.  Returns the
(suffix, path) pairs in write order. -/
def saveLoop (base : String) : List ImageGenResult → List String → Nat → List (Nat × String)
  | [], _, _ => []
  | r :: rest, fs, s =>
    let s' := findSuffix fs base (suffixFuel fs) s
    let p := fileName base s' (outExt r.format)
    (s', p) :: saveLoop base rest (p :: fs) (s' + 1)

/-- The whole saving phase of `main`: the initial scan starts at suffix 1,
then the per-result loop runs. -/
def driverSave (results : List ImageGenResult) (fs : List String) (base : String) :
    List (Nat × String) :=
  saveLoop base results fs (findSuffix fs base (suffixFuel fs) 1)

/-- An extension string that begins with a dot, as every extension the
saving loop uses does. -/
def dotHeaded (e : String) : Prop :=
  ∃ t, e.data = '.' :: t

/-! ## Lemmas about the float comparison -/

/-- Shifting to a common exponent scales the denotation by `2^(-E)`. -/
theorem toRat_shift (f : FloatVal) (E : Int) (h : E ≤ f.e) :
    ((f.m : ℚ)) * (2 : ℚ) ^ ((f.e - E).toNat) = f.toRat * (2 : ℚ) ^ (-E) := by
  have ht : (((f.e - E).toNat : ℤ)) = f.e - E := Int.toNat_of_nonneg (by omega)
  rw [← zpow_natCast (2 : ℚ), ht, FloatVal.toRat, mul_assoc,
    ← zpow_add₀ (by norm_num : (2 : ℚ) ≠ 0)]
  rw [sub_eq_add_neg]

/-- `flLt` decides the order of the denoted values. -/
theorem flLt_eq (a b : FloatVal) : flLt a b = decide (a.toRat < b.toRat) := by
  unfold flLt
  rw [decide_eq_decide]
  have h1 := toRat_shift a (min a.e b.e) (min_le_left a.e b.e)
  have h2 := toRat_shift b (min a.e b.e) (min_le_right a.e b.e)
  rw [← Int.cast_lt (R := ℚ)]
  push_cast
  rw [h1, h2]
  exact mul_lt_mul_right (zpow_pos (by norm_num) _)

/-- `flLe` decides the reflexive order of the denoted values. -/
theorem flLe_eq (a b : FloatVal) : flLe a b = decide (a.toRat ≤ b.toRat) := by
  unfold flLe
  rw [flLt_eq, ← decide_not, decide_eq_decide]
  exact not_lt

/-! ## Lemmas about the size parser -/

/-- A successful association-list lookup returns one of the stored values. -/
theorem lookup_mem_values {l : List (String × String)} {k v : String}
    (h : l.lookup k = some v) : v ∈ l.map Prod.snd := by
  induction l with
  | nil => simp [List.lookup] at h
  | cons p rest ih =>
    rw [List.lookup] at h
    by_cases hk : (k == p.1) = true
    · simp only [hk] at h
      rw [List.map_cons]
      exact List.mem_cons.mpr (Or.inl (Option.some.inj h).symm)
    · simp only [Bool.not_eq_true] at hk
      simp only [hk] at h
      rw [List.map_cons]
      exact List.mem_cons.mpr (Or.inr (ih h))

/-- The scan of `minScan` returns an element of the scanned list, its
float distance to `r` is minimal among the candidates, and it is the
first element of the list whose float distance reaches that minimum. -/
theorem minScan_spec (r : FloatVal) (rest : List (FloatVal × String)) :
    ∀ best : FloatVal × String,
      minScan r rest best ∈ best :: rest ∧
      (∀ q ∈ best :: rest,
        (floatDist r (minScan r rest best).1).toRat ≤ (floatDist r q.1).toRat) ∧
      (best :: rest).find?
          (fun q => flLe (floatDist r q.1) (floatDist r (minScan r rest best).1)) =
        some (minScan r rest best) := by
  induction rest with
  | nil =>
    intro best
    refine ⟨List.mem_singleton_self best, ?_, ?_⟩
    · intro q hq
      rw [List.mem_singleton] at hq
      simp [minScan, hq]
    · simp [minScan, List.find?, flLe_eq]
  | cons p rest ih =>
    intro best
    by_cases hlt : (floatDist r p.1).toRat < (floatDist r best.1).toRat
    · have hg : flLt (floatDist r p.1) (floatDist r best.1) = true := by
        rw [flLt_eq]
        exact decide_eq_true hlt
      have e : minScan r (p :: rest) best = minScan r rest p := by
        simp [minScan, hg]
      obtain ⟨hmem, hmin, hfind⟩ := ih p
      rw [e]
      refine ⟨List.mem_cons_of_mem best hmem, ?_, ?_⟩
      · intro q hq
        rcases List.mem_cons.mp hq with hq | hq
        · subst hq
          exact le_trans (hmin p (List.mem_cons_self p rest)) (le_of_lt hlt)
        · exact hmin q hq
      · have hbest : ¬ ((floatDist r best.1).toRat ≤ (floatDist r (minScan r rest p).1).toRat) := by
          intro hle
          exact absurd (lt_of_le_of_lt hle
            (lt_of_le_of_lt (hmin p (List.mem_cons_self p rest)) hlt)) (lt_irrefl _)
        rw [List.find?_cons_of_neg _ (by rw [flLe_eq]; simpa using hbest)]
        exact hfind
    · have hg : flLt (floatDist r p.1) (floatDist r best.1) = false := by
        rw [flLt_eq]
        exact decide_eq_false hlt
      have e : minScan r (p :: rest) best = minScan r rest best := by
        simp [minScan, hg]
      obtain ⟨hmem, hmin, hfind⟩ := ih best
      rw [e]
      have hbp : (floatDist r best.1).toRat ≤ (floatDist r p.1).toRat := le_of_not_lt hlt
      refine ⟨?_, ?_, ?_⟩
      · rcases List.mem_cons.mp hmem with hq | hq
        · rw [hq]
          exact List.mem_cons_self best (p :: rest)
        · exact List.mem_cons_of_mem best (List.mem_cons_of_mem p hq)
      · intro q hq
        rcases List.mem_cons.mp hq with hq | hq
        · subst hq
          exact hmin q (List.mem_cons_self q rest)
        · rcases List.mem_cons.mp hq with hq | hq
          · subst hq
            exact le_trans (hmin best (List.mem_cons_self best rest)) hbp
          · exact hmin q (List.mem_cons_of_mem best hq)
      · by_cases hb : (floatDist r best.1).toRat ≤ (floatDist r (minScan r rest best).1).toRat
        · have h1 : (best :: rest).find?
              (fun q => flLe (floatDist r q.1) (floatDist r (minScan r rest best).1)) =
                some best :=
            List.find?_cons_of_pos _ (by rw [flLe_eq]; simpa using hb)
          have h2 : best = minScan r rest best := by
            have := h1.symm.trans hfind
            exact Option.some.inj this
          rw [List.find?_cons_of_pos _ (by rw [flLe_eq]; simpa using hb)]
          exact congrArg some h2
        · have hres : (floatDist r (minScan r rest best).1).toRat <
              (floatDist r best.1).toRat := lt_of_not_le hb
          have hp : ¬ ((floatDist r p.1).toRat ≤ (floatDist r (minScan r rest best).1).toRat) := by
            intro hle
            exact absurd (lt_of_le_of_lt (le_trans hbp hle) hres) (lt_irrefl _)
          rw [List.find?_cons_of_neg _ (by rw [flLe_eq]; simpa using hb),
            List.find?_cons_of_neg _ (by rw [flLe_eq]; simpa using hp)]
          rw [List.find?_cons_of_neg _ (by rw [flLe_eq]; simpa using hb)] at hfind
          exact hfind

/-- A `.error` outcome of the `W x H` block is the uncaught
`OverflowError`, and pins down the branch that raised it. -/
theorem parseWxH_error {s : String} {e : PyErr} (h : parseWxH s = .error e) :
    e = .overflowError ∧
    ∃ a b w d, pySplit (pyToLower s) 'x' = [a, b] ∧ pyInt a = some w ∧
      pyInt b = some d ∧ d ≠ 0 ∧ divOverflows w d = true := by
  unfold parseWxH at h
  split at h
  case h_1 a b heq =>
    cases hw : pyInt a with
    | none =>
      simp only [hw] at h
      exact Except.noConfusion h
    | some w =>
      cases hd : pyInt b with
      | none =>
        simp only [hw, hd] at h
        exact Except.noConfusion h
      | some d =>
        simp only [hw, hd] at h
        by_cases hz : d = 0
        · rw [if_pos hz] at h
          cases h
        · rw [if_neg hz] at h
          by_cases ho : divOverflows w d = true
          · rw [if_pos ho] at h
            exact ⟨(Except.error.inj h).symm, a, b, w, d, heq, hw, hd, hz, ho⟩
          · rw [if_neg ho] at h
            cases h
  case h_2 => cases h

/-- Every `.ok` outcome of `_parse_size` is one of the six canonical
aspect tokens. -/
theorem parseSize_mem (s : String) :
    ∀ out, parseSize s = .ok out → out.1 ∈ VALID_ASPECTS := by
  intro out hout
  unfold parseSize at hout
  by_cases h1 : VALID_ASPECTS.contains s
  · rw [if_pos h1] at hout
    rw [← Except.ok.inj hout]
    exact List.mem_of_elem_eq_true h1
  · rw [if_neg h1] at hout
    cases hl : SIZE_TO_ASPECT.lookup s with
    | some a =>
      rw [hl] at hout
      have hv : a ∈ SIZE_TO_ASPECT.map Prod.snd := lookup_mem_values hl
      have hsub : ∀ v ∈ SIZE_TO_ASPECT.map Prod.snd, v ∈ VALID_ASPECTS := by decide
      rw [← Except.ok.inj hout]
      exact hsub a hv
    | none =>
      rw [hl] at hout
      by_cases h2 : pyContainsChar s 'x'
      · rw [if_pos h2] at hout
        cases hw : parseWxH s with
        | error e => rw [hw] at hout; cases hout
        | ok o =>
          cases o with
          | some r =>
            rw [hw] at hout
            have hmem := (minScan_spec r
              [(flDivInt 16 9, "16:9"), (flDivInt 9 16, "9:16"), (flDivInt 4 3, "4:3"),
               (flDivInt 3 4, "3:4"), (flDivInt 21 9, "21:9")] (⟨1, 0⟩, "1:1")).1
            have hsub : ∀ q ∈ aspectsList, q.2 ∈ VALID_ASPECTS := by decide
            rw [← Except.ok.inj hout]
            exact hsub _ hmem
          | none =>
            rw [hw] at hout
            rw [← Except.ok.inj hout]
            decide
      · rw [if_neg h2] at hout
        rw [← Except.ok.inj hout]
        decide

/-- An `.error` outcome of `_parse_size` is the uncaught `OverflowError`
from the `W x H` branch. -/
theorem parseSize_error (s : String) :
    ∀ e, parseSize s = .error e →
      e = .overflowError ∧ pyContainsChar s 'x' = true ∧
      ∃ a b w d, pySplit (pyToLower s) 'x' = [a, b] ∧ pyInt a = some w ∧
        pyInt b = some d ∧ d ≠ 0 ∧ divOverflows w d = true := by
  intro e he
  unfold parseSize at he
  by_cases h1 : VALID_ASPECTS.contains s
  · rw [if_pos h1] at he
    cases he
  · rw [if_neg h1] at he
    cases hl : SIZE_TO_ASPECT.lookup s with
    | some a => rw [hl] at he; cases he
    | none =>
      rw [hl] at he
      by_cases h2 : pyContainsChar s 'x'
      · rw [if_pos h2] at he
        cases hw : parseWxH s with
        | error e2 =>
          rw [hw] at he
          obtain ⟨he2, hrest⟩ := parseWxH_error hw
          exact ⟨(Except.error.inj he).symm.trans he2, h2, hrest⟩
        | ok o =>
          cases o <;> rw [hw] at he <;> cases he
      · rw [if_neg h2] at he
        cases he

/-- Sanity anchors for the float model, matching CPython: at `"7x6"` the
float distance to `4/3` is one unit in the last place smaller than to
`1.0`, so the scan picks `"4:3"`; at `"7x8"` the two distances are
exactly equal floats and the earlier candidate `1.0` wins. -/
theorem parseSize_float_cases :
    parseSize "7x6" = .ok ("4:3", none) ∧
    parseSize "7x8" = .ok ("1:1", none) ∧
    parseSize "100x100" = .ok ("1:1", none) ∧
    parseSize "1000x500" = .ok ("16:9", none) ∧
    parseSize "1920x1081" = .ok ("16:9", none) ∧
    parseSize "1234x567" = .ok ("21:9", none) ∧
    parseSize "999999999x1" = .ok ("21:9", none) ∧
    parseSize "7x-6" = .ok ("9:16", none) := by
  refine ⟨by decide, by decide, by decide, by decide, by decide, by decide, by decide, by decide⟩

/-! ## Claims C1 and C2 -/

/-- Claim C1 counterexample: `_parse_size` is not total — at a `W x H`
input whose quotient exceeds the float range, the uncaught
`OverflowError` of `w / h` propagates (the handler catches only
`ValueError` and `ZeroDivisionError`), so no canonical ratio is
returned. -/
theorem claim_c1_counterexample :
    parseSize hugeSize = .error .overflowError := by
  decide

/-- Claim C1 (amended): `_parse_size` either returns one of the six
canonical aspect ratios or raises the uncaught `OverflowError`; the
latter happens exactly when the `W x H` branch is reached with integer
components, `H ≠ 0`, and `|W/H| ≥ 2^1024 - 2^970` (beyond float range).
Malformed components and `H = 0` (such as `"5x0"`) still fall back to
`"1:1"`. -/
theorem claim_c1 :
    (∀ s out, parseSize s = .ok out → out.1 ∈ VALID_ASPECTS) ∧
    (∀ s e, parseSize s = .error e →
      e = .overflowError ∧ pyContainsChar s 'x' = true ∧
      ∃ a b w d, pySplit (pyToLower s) 'x' = [a, b] ∧ pyInt a = some w ∧
        pyInt b = some d ∧ d ≠ 0 ∧ divOverflows w d = true) ∧
    (∀ s, (∃ out, parseSize s = .ok out) ∨ parseSize s = .error .overflowError) ∧
    parseSize "5x0" = .ok ("1:1", none) := by
  refine ⟨parseSize_mem, parseSize_error, ?_, by decide⟩
  intro s
  cases hps : parseSize s with
  | ok out => exact Or.inl ⟨out, rfl⟩
  | error e =>
    exact Or.inr (congrArg Except.error (parseSize_error s e hps).1)

/-- Claim C1 witness: the amended claim's `.ok` direction at a known
pixel-dimension key. -/
theorem claim_c1_witness :
    ((("16:9" : String), (none : Option String)).1) ∈ VALID_ASPECTS :=
  claim_c1.1 "1920x1080" ("16:9", none) (by decide)

/-- Claim C2 counterexample: the claim asserts a case-insensitive `W x H`
separator, so that `"1920X1080"` would map to `"16:9"`; but the source
guard `"x" in size` is case-sensitive, so `"1920X1080"` falls through to
the `"1:1"` fallback. -/
theorem claim_c2_counterexample :
    parseSize "1920X1080" = .ok ("1:1", none) ∧
    parseSize "1920X1080" ≠ .ok ("16:9", none) := by
  exact ⟨by decide, by decide⟩

/-- Claim C2 (amended): for an input that is neither a canonical aspect
token nor a known pixel-dimension key, contains a lowercase `"x"`, and
after lowercasing splits on `"x"` into exactly two integer components
with nonzero `H` and `|W/H|` within float range, `_parse_size` computes
the binary64 quotient `W/H` and returns the canonical aspect ratio whose
binary64 key value has the smallest float distance `abs(key - ratio)` (a
rounded binary64 subtraction), equal float distances resolved in favor of
the first candidate in enumeration order.  An uppercase-only `"X"`
separator instead falls to the `"1:1"` fallback, and a quotient beyond
float range raises an uncaught `OverflowError`. -/
theorem claim_c2 (s a b : String) (w d : Int)
    (h1 : VALID_ASPECTS.contains s = false)
    (hl : SIZE_TO_ASPECT.lookup s = none)
    (h2 : pyContainsChar s 'x' = true)
    (hsplit : pySplit (pyToLower s) 'x' = [a, b])
    (hw : pyInt a = some w)
    (hd : pyInt b = some d)
    (hdz : d ≠ 0)
    (hov : divOverflows w d = false) :
    ∃ p, p ∈ aspectsList ∧ parseSize s = .ok (p.2, none) ∧
      (∀ q ∈ aspectsList,
        (floatDist (flDivInt w d) p.1).toRat ≤ (floatDist (flDivInt w d) q.1).toRat) ∧
      aspectsList.find?
          (fun q => flLe (floatDist (flDivInt w d) q.1) (floatDist (flDivInt w d) p.1)) =
        some p := by
  have hwxh : parseWxH s = .ok (some (flDivInt w d)) := by
    unfold parseWxH
    rw [hsplit]
    simp [hw, hd, hdz, hov]
  have hps : parseSize s = .ok (closestAspect (flDivInt w d), none) := by
    unfold parseSize
    rw [h1, hl, h2]
    simp [hwxh]
  obtain ⟨hmem, hmin, hfind⟩ := minScan_spec (flDivInt w d)
    [(flDivInt 16 9, "16:9"), (flDivInt 9 16, "9:16"), (flDivInt 4 3, "4:3"),
     (flDivInt 3 4, "3:4"), (flDivInt 21 9, "21:9")] (⟨1, 0⟩, "1:1")
  exact ⟨_, hmem, hps, hmin, hfind⟩

/-- Claim C2 witness: the amended claim at `"1000x500"` (ratio `2.0`). -/
theorem claim_c2_witness :
    ∃ p, p ∈ aspectsList ∧ parseSize "1000x500" = .ok (p.2, none) ∧
      (∀ q ∈ aspectsList,
        (floatDist (flDivInt 1000 500) p.1).toRat ≤
          (floatDist (flDivInt 1000 500) q.1).toRat) ∧
      aspectsList.find?
          (fun q => flLe (floatDist (flDivInt 1000 500) q.1)
            (floatDist (flDivInt 1000 500) p.1)) =
        some p :=
  claim_c2 "1000x500" "1000" "500" 1000 500 (by decide) (by decide) (by decide)
    (by decide) (by decide) (by decide) (by decide) (by decide)

/-! ## Claim C3: Variant B fan-out -/

/-- The generate loop issues one request per iteration. -/
theorem genLoop_calls (oracle : Nat → GeminiResponse) (req : GenRequest) :
    ∀ k i, (genLoop oracle req i k).1.length = k := by
  intro k
  induction k with
  | zero => intro i; rfl
  | succ k ih => intro i; simp [genLoop, ih (i + 1)]

/-- The generate loop's results are the per-call extractions concatenated
in call order. -/
theorem genLoop_results (oracle : Nat → GeminiResponse) (req : GenRequest) :
    ∀ k i, (genLoop oracle req i k).2 =
      ((List.range k).map fun j => extractImages (oracle (i + j))).flatten := by
  intro k
  induction k with
  | zero => intro i; rfl
  | succ k ih =>
    intro i
    have hshift : ∀ j : Nat, i + 1 + j = i + (j + 1) := by omega
    simp [genLoop, ih (i + 1), List.range_succ_eq_map, List.map_map, Function.comp_def,
      hshift]

/-- A concatenation of lists each of length at most one has length at most
the number of lists. -/
theorem flatten_length_le (l : List (List ImageGenResult))
    (h : ∀ x ∈ l, x.length ≤ 1) : l.flatten.length ≤ l.length := by
  induction l with
  | nil => simp
  | cons x rest ih =>
    have hx := h x (List.mem_cons_self x rest)
    have hr := ih fun y hy => h y (List.mem_cons_of_mem x hy)
    simp only [List.flatten_cons, List.length_append, List.length_cons]
    omega

/-- Claim C3 counterexample: a size whose `W x H` quotient overflows the
float range makes both `generate` and `edit` raise in `_parse_size`, so a
configuration with `count = 1` and a known quality issues zero remote
calls rather than exactly one. -/
theorem claim_c3_counterexample :
    geminiGenerate (fun _ => ⟨[⟨[⟨some ⟨"image/png", [7]⟩⟩]⟩]⟩)
        ⟨"p", [], "high", hugeSize, 1, false, "low"⟩ = .error .overflowError ∧
    geminiEdit (fun _ => ⟨[⟨[⟨some ⟨"image/png", [7]⟩⟩]⟩]⟩)
        ⟨"p", [], "high", hugeSize, 1, false, "low"⟩ = .error .overflowError := by
  exact ⟨by decide, by decide⟩

/-- Claim C3 (amended): for a configuration whose quality is a known tier
and whose size does not raise the `_parse_size` `OverflowError`, Variant
B's `generate` issues exactly `count` sequential remote calls and returns
the per-call results concatenated in call order (so at most one result
per call bounds the total by `count`), while `edit` issues exactly one
remote call regardless of `count`; an overflowing size instead raises
before any remote call in either operation. -/
theorem claim_c3 (oracle : Nat → GeminiResponse) (cfg : ImageGenConfig)
    (out : String × Option String) (hps : parseSize cfg.size = .ok out)
    (hq : (QUALITY_TO_SIZE.lookup cfg.quality).isSome = true) :
    ∃ calls results, geminiGenerate oracle cfg = .ok (calls, results) ∧
      calls.length = cfg.count.toNat ∧
      (0 ≤ cfg.count → (calls.length : Int) = cfg.count) ∧
      results = ((List.range cfg.count.toNat).map fun i => extractImages (oracle i)).flatten ∧
      ((∀ i, (extractImages (oracle i)).length ≤ 1) →
        results.length ≤ cfg.count.toNat) ∧
      ∃ editCalls editResults, geminiEdit oracle cfg = .ok (editCalls, editResults) ∧
        editCalls.length = 1 := by
  obtain ⟨sz, hsz⟩ := Option.isSome_iff_exists.mp hq
  obtain ⟨aspect, osz⟩ := out
  refine ⟨(genLoop oracle (geminiRequest cfg aspect sz) 0 cfg.count.toNat).1,
    (genLoop oracle (geminiRequest cfg aspect sz) 0 cfg.count.toNat).2, ?_, ?_, ?_, ?_, ?_, ?_⟩
  · unfold geminiGenerate
    rw [hps, hsz]
  · exact genLoop_calls oracle (geminiRequest cfg aspect sz) cfg.count.toNat 0
  · intro hc
    rw [genLoop_calls oracle (geminiRequest cfg aspect sz) cfg.count.toNat 0]
    exact Int.toNat_of_nonneg hc
  · have h0 : (genLoop oracle (geminiRequest cfg aspect sz) 0 cfg.count.toNat).2 =
        ((List.range cfg.count.toNat).map fun j => extractImages (oracle (0 + j))).flatten :=
      genLoop_results oracle (geminiRequest cfg aspect sz) cfg.count.toNat 0
    simpa using h0
  · intro hone
    have h0 : (genLoop oracle (geminiRequest cfg aspect sz) 0 cfg.count.toNat).2 =
        ((List.range cfg.count.toNat).map fun j => extractImages (oracle (0 + j))).flatten :=
      genLoop_results oracle (geminiRequest cfg aspect sz) cfg.count.toNat 0
    simp only [Nat.zero_add] at h0
    rw [h0]
    calc (((List.range cfg.count.toNat).map fun i => extractImages (oracle i)).flatten).length
        ≤ ((List.range cfg.count.toNat).map fun i => extractImages (oracle i)).length := by
          apply flatten_length_le
          intro x hx
          rcases List.mem_map.mp hx with ⟨j, _, rfl⟩
          exact hone j
      _ = cfg.count.toNat := by simp
  · refine ⟨[geminiRequest cfg aspect sz], extractImages (oracle 0), ?_, rfl⟩
    unfold geminiEdit
    rw [hps, hsz]

/-- Claim C3 witness: three calls at `count = 3`, each contributing one
result. -/
theorem claim_c3_witness :
    ∃ calls results,
      geminiGenerate (fun _ => ⟨[⟨[⟨some ⟨"image/png", [7]⟩⟩]⟩]⟩)
          ⟨"p", [], "high", "1:1", 3, false, "low"⟩ = .ok (calls, results) ∧
      calls.length = 3 ∧ results.length ≤ 3 := by
  obtain ⟨calls, results, hok, hlen, _, _, hb, _⟩ :=
    claim_c3 (fun _ => ⟨[⟨[⟨some ⟨"image/png", [7]⟩⟩]⟩]⟩)
      ⟨"p", [], "high", "1:1", 3, false, "low"⟩ ("1:1", none) (by decide) (by decide)
  exact ⟨calls, results, hok, hlen, hb (fun _ => by decide)⟩

/-! ## Claim C5: moderation mapping -/

/-- Claim C5: the moderation mapping sends `"low"` to `OFF` and `"auto"`
to `BLOCK_ONLY_HIGH`, defaults every other string to `BLOCK_ONLY_HIGH`,
and applies the single resolved threshold identically to the four harm
categories. -/
theorem claim_c5 :
    getSafetySettings "low" =
      [⟨.HARASSMENT, .OFF⟩, ⟨.HATE_SPEECH, .OFF⟩,
       ⟨.SEXUALLY_EXPLICIT, .OFF⟩, ⟨.DANGEROUS_CONTENT, .OFF⟩] ∧
    getSafetySettings "auto" =
      [⟨.HARASSMENT, .BLOCK_ONLY_HIGH⟩, ⟨.HATE_SPEECH, .BLOCK_ONLY_HIGH⟩,
       ⟨.SEXUALLY_EXPLICIT, .BLOCK_ONLY_HIGH⟩, ⟨.DANGEROUS_CONTENT, .BLOCK_ONLY_HIGH⟩] ∧
    (∀ m, m ≠ "low" → m ≠ "auto" →
      getSafetySettings m =
        [⟨.HARASSMENT, .BLOCK_ONLY_HIGH⟩, ⟨.HATE_SPEECH, .BLOCK_ONLY_HIGH⟩,
         ⟨.SEXUALLY_EXPLICIT, .BLOCK_ONLY_HIGH⟩, ⟨.DANGEROUS_CONTENT, .BLOCK_ONLY_HIGH⟩]) ∧
    (∀ m, (getSafetySettings m).map SafetySetting.category =
        [.HARASSMENT, .HATE_SPEECH, .SEXUALLY_EXPLICIT, .DANGEROUS_CONTENT] ∧
      ∃ t, ∀ x ∈ getSafetySettings m, x.threshold = t) := by
  refine ⟨by decide, by decide, ?_, ?_⟩
  · intro m hm1 hm2
    have e1 : (m == "low") = false := beq_eq_false_iff_ne.mpr hm1
    have e2 : (m == "auto") = false := beq_eq_false_iff_ne.mpr hm2
    have hl : MODERATION_TO_THRESHOLD.lookup m = none := by
      simp only [List.lookup, e1, e2, MODERATION_TO_THRESHOLD]
    unfold getSafetySettings
    rw [hl]
    rfl
  · intro m
    refine ⟨rfl, thresholdOfName ((MODERATION_TO_THRESHOLD.lookup m).getD "BLOCK_ONLY_HIGH"), ?_⟩
    intro x hx
    simp only [getSafetySettings, List.mem_cons, List.not_mem_nil, or_false] at hx
    rcases hx with rfl | rfl | rfl | rfl <;> rfl

/-- Claim C5 witness: an unrecognized moderation string defaults to
`BLOCK_ONLY_HIGH` everywhere. -/
theorem claim_c5_witness :
    getSafetySettings "strict" =
      [⟨.HARASSMENT, .BLOCK_ONLY_HIGH⟩, ⟨.HATE_SPEECH, .BLOCK_ONLY_HIGH⟩,
       ⟨.SEXUALLY_EXPLICIT, .BLOCK_ONLY_HIGH⟩, ⟨.DANGEROUS_CONTENT, .BLOCK_ONLY_HIGH⟩] :=
  claim_c5.2.2.1 "strict" (by decide) (by decide)

/-! ## Claim C6: Variant A result decoding -/

/-- Claim C6: each Variant A response item decodes to its base64 inline
data when that is non-empty, else to a fetch of its non-empty URL, else
raises (never a silent skip); every decoded result reports format
`"png"`. -/
theorem claim_c6 (b64decode fetch : String → List Nat) (item : OpenAIItem) :
    (∀ s, item.b64_json = some s → s ≠ "" →
      decodeResult b64decode fetch item = .ok ⟨b64decode s, "png"⟩) ∧
    (optTruthy item.b64_json = false → ∀ u, item.url = some u → u ≠ "" →
      decodeResult b64decode fetch item = .ok ⟨fetch u, "png"⟩) ∧
    (optTruthy item.b64_json = false → optTruthy item.url = false →
      decodeResult b64decode fetch item =
        .error "Unexpected response format from OpenAI API") ∧
    (∀ res, decodeResult b64decode fetch item = .ok res → res.format = "png") := by
  refine ⟨?_, ?_, ?_, ?_⟩
  · intro s hs hne
    simp [decodeResult, hs, optTruthy, hne]
  · intro h0 u hu hne
    have e : (u != "") = true := by simpa using hne
    unfold decodeResult
    rw [h0, hu]
    simp [optTruthy, e]
  · intro h0 h1
    simp [decodeResult, h0, h1]
  · intro res h
    unfold decodeResult at h
    by_cases h0 : optTruthy item.b64_json = true
    · rw [if_pos h0] at h
      rw [← Except.ok.inj h]
    · rw [if_neg h0] at h
      by_cases h1 : optTruthy item.url = true
      · rw [if_pos h1] at h
        rw [← Except.ok.inj h]
      · rw [if_neg h1] at h
        exact Except.noConfusion h

/-- Claim C6 witness: an item with non-empty inline data decodes to the
(abstract) base64 decoding with format `"png"`. -/
theorem claim_c6_witness :
    decodeResult (fun _ => [65, 66, 67]) (fun _ => []) ⟨some "QUJD", none⟩ =
      .ok ⟨[65, 66, 67], "png"⟩ :=
  (claim_c6 (fun _ => [65, 66, 67]) (fun _ => []) ⟨some "QUJD", none⟩).1 "QUJD" rfl
    (by decide)

/-! ## Claim C7: configuration immutability -/

/-- Claim C7: an `ImageGenConfig` reads back exactly the constructor
arguments, stores `images` as a fixed ordered sequence whether the input
collection was a growable list or a fixed tuple, and any attempted field
mutation raises. -/
theorem claim_c7 (prompt : String) (images : PySeq String) (quality size : String)
    (count : Int) (transparent : Bool) (moderation : String) :
    (mkImageGenConfig prompt images quality size count transparent moderation).prompt
        = prompt ∧
    (mkImageGenConfig prompt images quality size count transparent moderation).images
        = images.elems ∧
    (mkImageGenConfig prompt images quality size count transparent moderation).quality
        = quality ∧
    (mkImageGenConfig prompt images quality size count transparent moderation).size = size ∧
    (mkImageGenConfig prompt images quality size count transparent moderation).count
        = count ∧
    (mkImageGenConfig prompt images quality size count transparent moderation).transparent
        = transparent ∧
    (mkImageGenConfig prompt images quality size count transparent moderation).moderation
        = moderation ∧
    (∀ xs : List String,
      mkImageGenConfig prompt (PySeq.list xs) quality size count transparent moderation =
        mkImageGenConfig prompt (PySeq.tuple xs) quality size count transparent moderation) ∧
    (∀ (α : Type) (fieldName : String) (v : α), ∃ e,
      configSetattr (mkImageGenConfig prompt images quality size count transparent moderation)
          fieldName v = .error e) :=
  ⟨rfl, rfl, rfl, rfl, rfl, rfl, rfl, fun _ => rfl, fun _ fieldName _ =>
    ⟨"cannot assign to field " ++ fieldName, rfl⟩⟩

/-! ## Claim C8: the per-backend image-count ceiling -/

/-- Claim C8: the driver's ceiling is 4 input images for gpt and 14 for
gemini, and exceeding it exits with code 1 while reaching none of the
later milestones — no credential check, no image validation, and no
backend stage (hence no construction or remote call). -/
theorem claim_c8 :
    (∀ env args, args.images.length > maxImagesFor args.api →
      driverRun env args = ([], .error 1)) ∧
    maxImagesFor .gpt = 4 ∧ maxImagesFor .gemini = 14 := by
  refine ⟨?_, rfl, rfl⟩
  intro env args h
  by_cases hp : (args.promptFile.isSome && !env.fileExists (args.promptFile.getD "")) = true
  · simp [driverRun, hp]
  · simp only [Bool.not_eq_true] at hp
    simp [driverRun, hp, h]

/-- Claim C8 witness: edit mode with 5 input images against gpt (ceiling
4) fails with no milestone reached. -/
theorem claim_c8_witness :
    driverRun ⟨fun _ => true, fun _ => ".png", fun _ => some "k"⟩
        ⟨["a.png", "b.png", "c.png", "d.png", "e.png"], .gpt, none, "high", "1024x1024",
          some "p", none, 1, false, "low"⟩ =
      ([], .error 1) :=
  claim_c8.1 ⟨fun _ => true, fun _ => ".png", fun _ => some "k"⟩
    ⟨["a.png", "b.png", "c.png", "d.png", "e.png"], .gpt, none, "high", "1024x1024",
      some "p", none, 1, false, "low"⟩ (by decide)

/-! ## Claim C9: the backend selector -/

/-- Claim C9: `get_backend` maps exactly `"gpt"` and `"gemini"` to freshly
constructed backends and fails on any other name with a `ValueError`
naming the identifier, performing no construction. -/
theorem claim_c9 :
    getBackend "gpt" = ([.constructedOpenAI], .ok .openai) ∧
    getBackend "gemini" = ([.constructedGemini], .ok .gemini) ∧
    ∀ s, s ≠ "gpt" → s ≠ "gemini" →
      getBackend s = ([], .error ("Unknown API backend: " ++ s)) := by
  refine ⟨rfl, rfl, ?_⟩
  intro s h1 h2
  simp [getBackend, h1, h2]

/-- Claim C9 witness: an unrecognized name fails with the identifier in
the message and no construction event. -/
theorem claim_c9_witness :
    getBackend "claude" = ([], .error ("Unknown API backend: " ++ "claude")) :=
  claim_c9.2.2 "claude" (by decide) (by decide)

/-! ## Decimal rendering facts for the output-naming claims -/

/-- `digs` is never empty. -/
theorem digs_ne_nil (n : Nat) : digs n ≠ [] := by
  rw [digs]
  split
  · simp
  · simp

/-- `Nat.digitChar` is injective below 10. -/
theorem digitChar_inj : ∀ a, a < 10 → ∀ b, b < 10 → Nat.digitChar a = Nat.digitChar b →
    a = b := by decide

/-- Every digit character is a decimal digit. -/
theorem digitChar_isDigit : ∀ a, a < 10 → (Nat.digitChar a).isDigit = true := by decide

/-- Every character of `digs n` is a decimal digit. -/
theorem digs_isDigit (n : Nat) : ∀ c ∈ digs n, c.isDigit = true := by
  induction n using Nat.strong_induction_on with
  | _ n ih =>
    rw [digs]
    split
    case isTrue h =>
      intro c hc
      rw [List.mem_singleton] at hc
      subst hc
      exact digitChar_isDigit n h
    case isFalse h =>
      intro c hc
      rcases List.mem_append.mp hc with hc | hc
      · exact ih (n / 10) (Nat.div_lt_self (by omega) (by omega)) c hc
      · rw [List.mem_singleton] at hc
        subst hc
        exact digitChar_isDigit _ (Nat.mod_lt n (by omega))

/-- `digs` is injective: a decimal rendering determines the number. -/
theorem digs_inj : ∀ m, ∀ n, digs m = digs n → m = n := by
  intro m
  induction m using Nat.strong_induction_on with
  | _ m ih =>
    intro n h
    unfold digs at h
    by_cases hm : m < 10 <;> by_cases hn : n < 10
    · rw [dif_pos hm, dif_pos hn] at h
      exact digitChar_inj m hm n hn (List.cons.inj h).1
    · rw [dif_pos hm, dif_neg hn] at h
      have hlen := congrArg List.length h
      rw [List.length_append] at hlen
      simp only [List.length_singleton] at hlen
      exact absurd (List.length_eq_zero.mp (by omega)) (digs_ne_nil (n / 10))
    · rw [dif_neg hm, dif_pos hn] at h
      have hlen := congrArg List.length h
      rw [List.length_append] at hlen
      simp only [List.length_singleton] at hlen
      exact absurd (List.length_eq_zero.mp (by omega)) (digs_ne_nil (m / 10))
    · rw [dif_neg hm, dif_neg hn] at h
      have hlen : (digs (m / 10)).length = (digs (n / 10)).length := by
        have h10 := congrArg List.length h
        rw [List.length_append, List.length_append] at h10
        simp only [List.length_singleton] at h10
        omega
      obtain ⟨h1, h2⟩ := List.append_inj h hlen
      have hdiv : m / 10 = n / 10 :=
        ih (m / 10) (Nat.div_lt_self (by omega) (by omega)) (n / 10) h1
      have hmod : m % 10 = n % 10 :=
        digitChar_inj _ (Nat.mod_lt m (by omega)) _ (Nat.mod_lt n (by omega))
          (List.cons.inj h2).1
      omega

/-- `Nat.toDigitsCore` with enough fuel produces the decimal digits in
front of the accumulator. -/
theorem toDigitsCore_eq_digs :
    ∀ fuel n, n < fuel → ∀ ds, Nat.toDigitsCore 10 fuel n ds = digs n ++ ds := by
  intro fuel
  induction fuel with
  | zero => intro n hn; omega
  | succ fuel ih =>
    intro n hn ds
    rw [Nat.toDigitsCore]
    by_cases h0 : n / 10 = 0
    · have hlt : n < 10 := by omega
      rw [if_pos h0, digs, dif_pos hlt, Nat.mod_eq_of_lt hlt]
      rfl
    · have hge : 10 ≤ n := by
        by_contra hc
        exact h0 (Nat.div_eq_of_lt (by omega))
      rw [if_neg h0, ih (n / 10) (by
        have := Nat.div_lt_self (show 0 < n by omega) (show 1 < 10 by omega)
        omega)]
      conv_rhs => rw [digs]
      rw [dif_neg (show ¬ n < 10 by omega), List.append_assoc]
      rfl

/-- `Nat.repr` renders exactly the decimal digits. -/
theorem repr_data (n : Nat) : (Nat.repr n).data = digs n := by
  show (Nat.toDigits 10 n).asString.data = digs n
  rw [Nat.toDigits, toDigitsCore_eq_digs (n + 1) n (by omega) []]
  simp [List.asString]

/-- `Nat.repr` is injective. -/
theorem repr_inj {m n : Nat} (h : Nat.repr m = Nat.repr n) : m = n := by
  apply digs_inj m n
  rw [← repr_data, ← repr_data, h]

/-- Every character of a `Nat.repr` rendering is a decimal digit. -/
theorem repr_isDigit (n : Nat) : ∀ c ∈ (Nat.repr n).data, c.isDigit = true := by
  rw [repr_data]
  exact digs_isDigit n

/-! ## File-name structure lemmas -/

/-- Splitting a digits-then-dot character list is unambiguous. -/
theorem dotSplit : ∀ (l1 : List Char) (l2 t1 t2 : List Char),
    (∀ c ∈ l1, c.isDigit = true) → (∀ c ∈ l2, c.isDigit = true) →
    l1 ++ '.' :: t1 = l2 ++ '.' :: t2 → l1 = l2 ∧ t1 = t2 := by
  intro l1
  induction l1 with
  | nil =>
    intro l2 t1 t2 _ h2 h
    cases l2 with
    | nil => exact ⟨rfl, (List.cons.inj h).2⟩
    | cons c l2q =>
      exfalso
      have hc : c.isDigit = true := h2 c (List.mem_cons_self c l2q)
      have : '.' = c := (List.cons.inj h).1
      rw [← this] at hc
      exact absurd hc (by decide)
  | cons c l1q ih =>
    intro l2 t1 t2 h1 h2 h
    cases l2 with
    | nil =>
      exfalso
      have hc : c.isDigit = true := h1 c (List.mem_cons_self c l1q)
      have : c = '.' := (List.cons.inj h).1
      rw [this] at hc
      exact absurd hc (by decide)
    | cons c2 l2q =>
      obtain ⟨hc, hrest⟩ := List.cons.inj h
      obtain ⟨hl, ht⟩ := ih l2q t1 t2
        (fun d hd => h1 d (List.mem_cons_of_mem c hd))
        (fun d hd => h2 d (List.mem_cons_of_mem c2 hd)) hrest
      exact ⟨by rw [hc, hl], ht⟩

/-- The character data of a candidate output file name. -/
theorem fileName_data (base : String) (n : Nat) (ext : String) :
    (fileName base n ext).data = base.data ++ '_' :: ((Nat.repr n).data ++ ext.data) := by
  show (base ++ "_" ++ Nat.repr n ++ ext).data = _
  rw [String.data_append, String.data_append, String.data_append]
  rw [List.append_assoc, List.append_assoc]
  rfl

/-- Candidate file names with dot-headed extensions agree only on equal
suffix numbers and equal extensions. -/
theorem fileName_inj {base e1 e2 : String} {n m : Nat}
    (h1 : dotHeaded e1) (h2 : dotHeaded e2)
    (h : fileName base n e1 = fileName base m e2) : n = m ∧ e1 = e2 := by
  obtain ⟨t1, ht1⟩ := h1
  obtain ⟨t2, ht2⟩ := h2
  have hd := congrArg String.data h
  rw [fileName_data, fileName_data, ht1, ht2] at hd
  have hd2 := List.append_cancel_left hd
  have hd3 := (List.cons.inj hd2).2
  obtain ⟨hrepr, ht⟩ := dotSplit _ _ _ _ (repr_isDigit n) (repr_isDigit m) hd3
  refine ⟨repr_inj (String.ext hrepr), String.ext ?_⟩
  rw [ht1, ht2, ht]

/-- The four recognized extensions all begin with a dot. -/
theorem allExtensions_dotHeaded : ∀ e ∈ allExtensions, dotHeaded e := by
  intro e he
  simp only [allExtensions, List.mem_cons, List.not_mem_nil, or_false] at he
  rcases he with rfl | rfl | rfl | rfl
  · exact ⟨['p', 'n', 'g'], rfl⟩
  · exact ⟨['j', 'p', 'g'], rfl⟩
  · exact ⟨['j', 'p', 'e', 'g'], rfl⟩
  · exact ⟨['w', 'e', 'b', 'p'], rfl⟩

/-- Unfolding the collision test. -/
theorem blocked_iff (fs : List String) (base : String) (k : Nat) :
    isBlocked fs base k = true ↔ ∃ e ∈ allExtensions, fileName base k e ∈ fs := by
  unfold isBlocked
  rw [List.any_eq_true]
  constructor
  · rintro ⟨e, he, hc⟩
    exact ⟨e, he, List.elem_iff.mp hc⟩
  · rintro ⟨e, he, hm⟩
    exact ⟨e, he, List.elem_iff.mpr hm⟩

/-- An unblocked suffix has no recognized-extension collision at all. -/
theorem unblocked_iff (fs : List String) (base : String) (k : Nat) :
    isBlocked fs base k = false ↔ ∀ e ∈ allExtensions, fileName base k e ∉ fs := by
  rw [← Bool.not_eq_true, blocked_iff]
  push_neg
  rfl

/-- Pigeonhole: within any window of `4 * |fs| + 1` consecutive suffix
numbers, some suffix is unblocked — each blocked suffix consumes a distinct
(existing file, extension) pair. -/
theorem exists_unblocked (fs : List String) (base : String) (start : Nat) :
    ∃ k, start ≤ k ∧ k < start + suffixFuel fs ∧ isBlocked fs base k = false := by
  by_contra hall
  push_neg at hall
  have hall2 : ∀ k, start ≤ k → k < start + suffixFuel fs → isBlocked fs base k = true := by
    intro k h1 h2
    have := hall k h1 h2
    revert this
    cases isBlocked fs base k <;> simp
  classical
  set S : Finset Nat := Finset.Ico start (start + suffixFuel fs) with hS
  set T : Finset (String × String) := fs.toFinset ×ˢ allExtensions.toFinset with hT
  have hcard : T.card < S.card := by
    have h1 : S.card = suffixFuel fs := by
      rw [hS, Nat.card_Ico]
      omega
    have h2 : T.card ≤ fs.length * 4 := by
      rw [hT, Finset.card_product]
      exact Nat.mul_le_mul fs.toFinset_card_le
        (le_trans allExtensions.toFinset_card_le (by decide))
    rw [h1]
    unfold suffixFuel
    omega
  set f : Nat → String × String := fun k =>
    let e := (allExtensions.find? fun e => fs.contains (fileName base k e)).getD ".png"
    (fileName base k e, e) with hf
  have hmaps : ∀ k ∈ S, f k ∈ T := by
    intro k hk
    rw [hS, Finset.mem_Ico] at hk
    obtain ⟨e0, he0, hc0⟩ := (blocked_iff fs base k).mp (hall2 k hk.1 hk.2)
    have hsome : (allExtensions.find? fun e => fs.contains (fileName base k e)).isSome := by
      rw [List.find?_isSome]
      exact ⟨e0, he0, List.elem_iff.mpr hc0⟩
    obtain ⟨e, he⟩ := Option.isSome_iff_exists.mp hsome
    have hecontains := List.find?_some he
    have hemem : e ∈ allExtensions := List.mem_of_find?_eq_some he
    rw [hf]
    simp only [he, Option.getD_some]
    rw [hT, Finset.mem_product]
    exact ⟨List.mem_toFinset.mpr (List.elem_iff.mp hecontains),
      List.mem_toFinset.mpr hemem⟩
  obtain ⟨x, hx, y, hy, hxy, hfeq⟩ :=
    Finset.exists_ne_map_eq_of_card_lt_of_maps_to hcard hmaps
  rw [hf] at hfeq
  simp only at hfeq
  obtain ⟨hname, hext⟩ := Prod.mk.inj hfeq
  rw [hext] at hname
  set e := (allExtensions.find? fun e => fs.contains (fileName base y e)).getD ".png" with he
  have hedh : dotHeaded e := by
    rw [hS, Finset.mem_Ico] at hy
    obtain ⟨e0, he0, hc0⟩ := (blocked_iff fs base y).mp (hall2 y hy.1 hy.2)
    have hsome : (allExtensions.find? fun q => fs.contains (fileName base y q)).isSome := by
      rw [List.find?_isSome]
      exact ⟨e0, he0, List.elem_iff.mpr hc0⟩
    obtain ⟨e1, he1⟩ := Option.isSome_iff_exists.mp hsome
    rw [he]
    simp only [he1, Option.getD_some]
    exact allExtensions_dotHeaded e1 (List.mem_of_find?_eq_some he1)
  exact hxy (fileName_inj hedh hedh hname).1

/-- The suffix scan never goes below its starting point. -/
theorem findSuffix_ge (fs : List String) (base : String) :
    ∀ fuel start, start ≤ findSuffix fs base fuel start := by
  intro fuel
  induction fuel with
  | zero => intro start; exact le_refl start
  | succ fuel ih =>
    intro start
    rw [findSuffix]
    split
    · exact le_trans (Nat.le_succ start) (ih (start + 1))
    · exact le_refl start

/-- Every suffix skipped by the scan was blocked. -/
theorem findSuffix_below_blocked (fs : List String) (base : String) :
    ∀ fuel start k, start ≤ k → k < findSuffix fs base fuel start →
      isBlocked fs base k = true := by
  intro fuel
  induction fuel with
  | zero =>
    intro start k h1 h2
    rw [findSuffix] at h2
    omega
  | succ fuel ih =>
    intro start k h1 h2
    rw [findSuffix] at h2
    by_cases hb : isBlocked fs base start = true
    · rw [if_pos hb] at h2
      rcases Nat.eq_or_lt_of_le h1 with rfl | hlt
      · exact hb
      · exact ih (start + 1) k hlt h2
    · rw [if_neg hb] at h2
      omega

/-- If some suffix in the fuel window is unblocked, the scan lands on an
unblocked suffix. -/
theorem findSuffix_reaches (fs : List String) (base : String) :
    ∀ fuel start k, start ≤ k → k < start + fuel → isBlocked fs base k = false →
      isBlocked fs base (findSuffix fs base fuel start) = false := by
  intro fuel
  induction fuel with
  | zero => intro start k h1 h2 _; omega
  | succ fuel ih =>
    intro start k h1 h2 h3
    rw [findSuffix]
    by_cases hb : isBlocked fs base start = true
    · rw [if_pos hb]
      have hne : k ≠ start := by
        intro hc
        rw [hc] at h3
        rw [h3] at hb
        cases hb
      exact ih (start + 1) k (by omega) (by omega) h3
    · rw [if_neg hb]
      revert hb
      cases isBlocked fs base start <;> simp

/-- With the caller's fuel, the scan always lands on an unblocked suffix. -/
theorem findSuffix_free (fs : List String) (base : String) (start : Nat) :
    isBlocked fs base (findSuffix fs base (suffixFuel fs) start) = false := by
  obtain ⟨k, h1, h2, h3⟩ := exists_unblocked fs base start
  exact findSuffix_reaches fs base (suffixFuel fs) start k h1 h2 h3

/-- Every extension the saving loop writes begins with a dot. -/
theorem outExt_dotHeaded (fmt : String) : dotHeaded (outExt fmt) := by
  show dotHeaded (if (if fmt = "" then "png" else fmt) = "jpeg" then ".jpg"
    else "." ++ (if fmt = "" then "png" else fmt))
  split <;> split <;>
    (first
      | exact ⟨['j', 'p', 'g'], rfl⟩
      | exact ⟨_, rfl⟩)

/-- Suffixes assigned by the saving loop never go below the starting
suffix. -/
theorem saveLoop_ge (base : String) :
    ∀ (results : List ImageGenResult) (fs : List String) (s : Nat),
      ∀ pr ∈ saveLoop base results fs s, s ≤ pr.1 := by
  intro results
  induction results with
  | nil => intro fs s pr hpr; cases hpr
  | cons r rest ih =>
    intro fs s pr hpr
    rw [saveLoop] at hpr
    rcases List.mem_cons.mp hpr with rfl | hpr
    · exact findSuffix_ge fs base (suffixFuel fs) s
    · have := ih _ _ pr hpr
      have h0 := findSuffix_ge fs base (suffixFuel fs) s
      omega

/-- Every pair written by the saving loop names its own suffix with a
dot-headed extension. -/
theorem saveLoop_shape (base : String) :
    ∀ (results : List ImageGenResult) (fs : List String) (s : Nat),
      ∀ pr ∈ saveLoop base results fs s,
        ∃ e, dotHeaded e ∧ pr.2 = fileName base pr.1 e := by
  intro results
  induction results with
  | nil => intro fs s pr hpr; cases hpr
  | cons r rest ih =>
    intro fs s pr hpr
    rw [saveLoop] at hpr
    rcases List.mem_cons.mp hpr with rfl | hpr
    · exact ⟨outExt r.format, outExt_dotHeaded r.format, rfl⟩
    · exact ih _ _ pr hpr

/-- The suffixes assigned within one invocation are strictly increasing. -/
theorem saveLoop_pairwise (base : String) :
    ∀ (results : List ImageGenResult) (fs : List String) (s : Nat),
      (saveLoop base results fs s).Pairwise (fun a b => a.1 < b.1) := by
  intro results
  induction results with
  | nil => intro fs s; exact List.Pairwise.nil
  | cons r rest ih =>
    intro fs s
    rw [saveLoop]
    refine List.Pairwise.cons ?_ (ih _ _)
    intro b hb
    have := saveLoop_ge base rest _ _ b hb
    omega

/-- No file name written by the saving loop collides, under any recognized
extension, with a file present when the loop step ran — in particular not
with any pre-existing file. -/
theorem saveLoop_fresh (base : String) :
    ∀ (results : List ImageGenResult) (fs : List String) (s : Nat),
      ∀ pr ∈ saveLoop base results fs s, ∀ e ∈ allExtensions,
        fileName base pr.1 e ∉ fs := by
  intro results
  induction results with
  | nil => intro fs s pr hpr; cases hpr
  | cons r rest ih =>
    intro fs s pr hpr
    rw [saveLoop] at hpr
    rcases List.mem_cons.mp hpr with rfl | hpr
    · exact (unblocked_iff fs base _).mp (findSuffix_free fs base s)
    · intro e he hmem
      exact ih _ _ pr hpr e he (List.mem_cons_of_mem _ hmem)

/-! ## Claims C4 and C10 -/

/-- Claim C4: output names are `base_n.ext` with `n` starting at 1 and
incrementing past every existing file sharing the stem under any of the
four recognized extensions (the landing suffix is itself free); with
`base_1.png` and `base_2.jpg` present, a new png result is written to
`base_3.png`; and the extension comes from the result's format with `jpeg`
normalized to `.jpg`. -/
theorem claim_c4 :
    (∀ fs base,
      (∀ k, 1 ≤ k → k < findSuffix fs base (suffixFuel fs) 1 →
        isBlocked fs base k = true) ∧
      isBlocked fs base (findSuffix fs base (suffixFuel fs) 1) = false) ∧
    driverSave [⟨[7], "png"⟩] ["base_1.png", "base_2.jpg"] "base" = [(3, "base_3.png")] ∧
    outExt "jpeg" = ".jpg" ∧ outExt "png" = ".png" ∧
    (∀ fmt, fmt ≠ "" → fmt ≠ "jpeg" → outExt fmt = "." ++ fmt) := by
  refine ⟨?_, by decide, by decide, by decide, ?_⟩
  · intro fs base
    exact ⟨fun k h1 h2 => findSuffix_below_blocked fs base (suffixFuel fs) 1 k h1 h2,
      findSuffix_free fs base 1⟩
  · intro fmt h1 h2
    unfold outExt
    rw [if_neg h1, if_neg h2]

/-- Claim C4 witness: with `base_1.png` and `base_2.jpg` present the scan
lands on 3, having skipped 2 because `base_2.jpg` blocks it. -/
theorem claim_c4_witness :
    isBlocked ["base_1.png", "base_2.jpg"] "base" 2 = true :=
  (claim_c4.1 ["base_1.png", "base_2.jpg"] "base").1 2 (by decide) (by decide)

/-- Claim C10: within one invocation the assigned suffixes strictly
increase, the written paths are pairwise distinct, and no path that names
the stem under a recognized extension collides with a pre-existing file. -/
theorem claim_c10 (results : List ImageGenResult) (fs : List String) (base : String) :
    (driverSave results fs base).Pairwise (fun a b => a.1 < b.1) ∧
    ((driverSave results fs base).map Prod.snd).Pairwise (fun p q => p ≠ q) ∧
    (∀ pr ∈ driverSave results fs base, ∀ e ∈ allExtensions, ∀ n : Nat,
      pr.2 = fileName base n e → pr.2 ∉ fs) := by
  refine ⟨saveLoop_pairwise base results fs _, ?_, ?_⟩
  · rw [List.pairwise_map]
    refine List.Pairwise.imp_of_mem ?_ (saveLoop_pairwise base results fs _)
    intro a b ha hb hlt heq
    obtain ⟨ea, hda, hfa⟩ := saveLoop_shape base results fs _ a ha
    obtain ⟨eb, hdb, hfb⟩ := saveLoop_shape base results fs _ b hb
    rw [hfa, hfb] at heq
    have := (fileName_inj hda hdb heq).1
    omega
  · intro pr hpr e he n hn
    obtain ⟨e0, hd0, hf0⟩ := saveLoop_shape base results fs _ pr hpr
    have heq : fileName base pr.1 e0 = fileName base n e := by rw [← hf0, ← hn]
    obtain ⟨hn0, he0⟩ := fileName_inj hd0 (allExtensions_dotHeaded e he) heq
    rw [hf0, he0]
    exact saveLoop_fresh base results fs _ pr hpr e he

/-- Claim C10 witness: with `a_1.png` present, the first result of an
invocation is written to `a_2.png`, which did not exist beforehand. -/
theorem claim_c10_witness :
    ("a_2.png" : String) ∉ (["a_1.png"] : List String) :=
  (claim_c10 [⟨[1], "png"⟩, ⟨[2], "png"⟩] ["a_1.png"] "a").2.2 (2, "a_2.png")
    (by decide) ".png" (by decide) 2 (by decide)

end ImageGen
